import Mathlib

/-!
Verification of the markon document-preview server.

This file gives a shallow embedding of the parts of the source that the
specified properties talk about and proves or refutes each property:

* the sandboxed path resolver of the HTTP handler (src/server.rs, handle_path);
* the search index manager built on the tantivy engine (src/search.rs);
* the collaboration hub over websockets and sqlite (src/server.rs, handle_socket).

Filesystem paths are modelled as lists of components; the real filesystem is
modelled by an abstract canonicalisation function, since canonicalisation
consults symlinks and the disk. Machine effects (printing to stderr, sqlite,
the broadcast channel) are modelled by explicit log lists, an explicit store
value and explicit outbox lists.
-/

set_option autoImplicit false

namespace Markon

/-! ## Rust path and string primitives -/

/-- Splitting a character list on a separator character; structural, so
that concrete instances evaluate inside the kernel. -/
def splitOnCharAux (sep : Char) : List Char → List Char → List String
  | [], acc => [String.mk acc.reverse]
  | c :: rest, acc =>
    if c = sep then String.mk acc.reverse :: splitOnCharAux sep rest []
    else splitOnCharAux sep rest (c :: acc)

/-- Split a string on a separator character. -/
def splitOnChar (sep : Char) (s : String) : List String :=
  splitOnCharAux sep s.toList []

/-- Whether a string starts with the given character. -/
def startsWithChar (c : Char) (s : String) : Bool :=
  match s.toList with
  | x :: _ => x = c
  | [] => false

/-- Lowercase a string character by character, as Rust to_lowercase does on
ASCII. -/
def strToLower (s : String) : String :=
  String.mk (s.toList.map Char.toLower)

/-- Trim whitespace from both ends, as Rust str::trim. -/
def trimStr (s : String) : String :=
  String.mk
    (((s.toList.dropWhile Char.isWhitespace).reverse.dropWhile
        Char.isWhitespace).reverse)

/-- Join strings with a separator, as Rust path display does. -/
def joinWith (sep : String) : List String → String
  | [] => ""
  | [x] => x
  | x :: y :: rest => x ++ sep ++ joinWith sep (y :: rest)

/-- Split a file name at its last dot, as used by Rust file stem and
extension computations: returns the part before and after the last dot,
or none when the name holds no dot. -/
def splitAtLastDot : List Char → Option (List Char × List Char)
  | [] => none
  | c :: rest =>
    match splitAtLastDot rest with
    | some (b, a) => some (c :: b, a)
    | none => if c = '.' then some ([], rest) else none

/-- Rust Path::extension on a file name: the portion after the final dot,
none when there is no dot or when the only dot is the leading one of a
hidden file. -/
def extension (name : String) : Option String :=
  match splitAtLastDot name.toList with
  | none => none
  | some (before, aft) => if before = [] then none else some (String.mk aft)

/-- Rust Path::file_stem on a file name: the portion before the final dot,
or the whole name when `extension` is none. -/
def fileStem (name : String) : String :=
  match splitAtLastDot name.toList with
  | none => name
  | some (before, _) => if before = [] then name else String.mk before

/-- Last component of a component-list path, the Rust file_name. -/
def lastComponent (p : List String) : String :=
  p.getLast?.getD ""

/-- Drop one trailing carriage return, as Rust str::lines does per line. -/
def stripCr (l : String) : String :=
  match l.toList.reverse with
  | '\r' :: rest => String.mk rest.reverse
  | _ => l

/-- Rust str::lines: split on newline, dropping one trailing empty segment
and a carriage return at the end of each line. -/
def rustLines (s : String) : List String :=
  let parts := splitOnChar '\n' s
  let parts := if parts.getLast? = some "" then parts.dropLast else parts
  parts.map stripCr

/-- Rust str::trim_start_matches for a single character. -/
def trimStartMatchesChar (c : Char) (s : String) : String :=
  String.mk (s.toList.dropWhile (fun x => x = c))

/-! ## Path resolver (src/server.rs, handle_path) -/

/-- The request path as parsed from the decoded URL path: Rust PathBuf::from
keeps the components and records whether the path is absolute. Empty and
current-directory components are normalised away, a parent component stays
literal and is only resolved by canonicalisation. -/
structure ReqPath where
  absolute : Bool
  comps : List String
deriving DecidableEq, Repr

/-- Parse a decoded URL path into components, as PathBuf::from does. -/
def parsePath (s : String) : ReqPath :=
  ⟨startsWithChar '/' s, (splitOnChar '/' s).filter (fun c => c ≠ "" && c ≠ ".")⟩

/-- Rust Path::join: an absolute argument replaces the base entirely. -/
def joinUnder (base : List String) (r : ReqPath) : List String :=
  if r.absolute then r.comps else base ++ r.comps

/-- The filesystem as the path resolver sees it: canonicalisation (which
resolves symlinks and parent components against the real disk and fails on
missing paths) and the file and directory predicates used after the
containment check. -/
structure Fs where
  canonicalize : List String → Option (List String)
  isFile : List String → Bool
  isDir : List String → Bool

/-- Serving-side markdown test of handle_path:
extension().is_some_and(|ext| ext.to_lowercase() == "md"). -/
def mdServe (fileName : String) : Bool :=
  match extension fileName with
  | some e => strToLower e = "md"
  | none => false

/-- Outcome of handle_path. The rendered-markdown case records the path the
handler passes to render_markdown_file, which fs::read_to_string resolves
against the current directory (the start directory), i.e. the joined full
path, together with its canonical form; the static case records the
canonical path that serve_file reads directly. -/
inductive HandleResult where
  | notFound (decoded : String)
  | forbidden
  | renderedMarkdown (readPath : List String) (canonical : List String)
  | staticFile (canonical : List String)
  | directoryListing (decoded : String)
  | notFoundOther
deriving DecidableEq, Repr

/-- The file a response body is read from, when there is one, as the pair of
the path handed to the read call and its canonical form. -/
def HandleResult.servedFile : HandleResult → Option (List String × List String)
  | .renderedMarkdown rp c => some (rp, c)
  | .staticFile c => some (c, c)
  | _ => none

/-- The URL-decoded request path:
urlencoding::decode(&path).unwrap_or_else(|_| path). -/
def decodedOf (decode : String → Option String) (raw : String) : String :=
  (decode raw).getD raw

/-- The candidate path handed to canonicalisation: the decoded request path
joined under the start directory. This is also the path
render_markdown_file hands to fs::read_to_string, since a relative path is
read against the current directory, which is the start directory. -/
def requestFullPath (decode : String → Option String)
    (startDir : List String) (raw : String) : List String :=
  joinUnder startDir (parsePath (decodedOf decode raw))

/-- Embedding of handle_path (src/server.rs): URL-decode falling back to the
raw path, join under the start directory, canonicalise, 404 on failure,
403 when the canonical path is not under the start directory, then serve
according to file kind and extension. -/
def handle_path (fs : Fs) (decode : String → Option String)
    (startDir : List String) (raw : String) : HandleResult :=
  match fs.canonicalize (requestFullPath decode startDir raw) with
  | none => .notFound (decodedOf decode raw)
  | some canonical =>
    if ¬ (startDir.isPrefixOf canonical) then .forbidden
    else if fs.isFile canonical then
      if mdServe (lastComponent canonical) then
        .renderedMarkdown (requestFullPath decode startDir raw) canonical
      else .staticFile canonical
    else if fs.isDir canonical then .directoryListing (decodedOf decode raw)
    else .notFoundOther

/-- A small concrete filesystem used to evaluate the resolver theorems: the
root holds a markdown file, a symlink escaping the root, and a parent
traversal that resolves outside the root. -/
def demoFs : Fs where
  canonicalize p :=
    if p = ["home", "docs", "a.md"] then some ["home", "docs", "a.md"]
    else if p = ["home", "docs", "link.md"] then some ["etc", "secret.md"]
    else if p = ["home", "docs", "..", "etc", "secret.md"] then some ["etc", "secret.md"]
    else if p = ["home", "docs", "X.MD"] then some ["home", "docs", "X.MD"]
    else none
  isFile p := p = ["home", "docs", "a.md"] || p = ["etc", "secret.md"]
               || p = ["home", "docs", "X.MD"]
  isDir _ := false

/-! ## Search index manager (src/search.rs)

The tantivy engine is modelled at document level: the index writer holds a
pending batch of operations, a commit folds them into the committed document
list that searchers see. delete_term on the path field removes every document
whose stored path equals the term, add_document appends. The external jieba
tokenizer is modelled on ASCII word tokens as maximal alphanumeric runs, and
the external tantivy query parser as tokenisation that fails on an unbalanced
quote; both are only consumed through single plain word tokens in the
properties below. -/

/-- One document of the index, one field per schema field of src/search.rs. -/
structure Entry where
  path : String
  file_name : String
  title : String
  content : String
deriving DecidableEq, Repr

/-- A pending index-writer operation. -/
inductive WOp where
  | addDoc (e : Entry)
  | deleteTerm (p : String)
deriving DecidableEq, Repr

/-- Apply one pending operation to the committed document list. -/
def applyWOp (es : List Entry) : WOp → List Entry
  | .addDoc e => es ++ [e]
  | .deleteTerm p => es.filter (fun x => x.path ≠ p)

/-- The index state: documents visible to searchers, plus the pending batch
of the writer. -/
structure SIndex where
  committed : List Entry
  pending : List WOp
deriving DecidableEq, Repr

def SIndex.addDoc (ix : SIndex) (e : Entry) : SIndex :=
  ⟨ix.committed, ix.pending ++ [WOp.addDoc e]⟩

def SIndex.deleteTerm (ix : SIndex) (p : String) : SIndex :=
  ⟨ix.committed, ix.pending ++ [WOp.deleteTerm p]⟩

/-- Commit: pending operations become atomically visible, in order. -/
def SIndex.commit (ix : SIndex) : SIndex :=
  ⟨ix.pending.foldl applyWOp ix.committed, []⟩

/-- A call into the index writer, used to state how many commits a scan
performs. -/
inductive WriterCall where
  | addDoc (e : Entry)
  | deleteTerm (p : String)
  | commitCall
deriving DecidableEq, Repr

def SIndex.runCall (ix : SIndex) : WriterCall → SIndex
  | .addDoc e => ix.addDoc e
  | .deleteTerm p => ix.deleteTerm p
  | .commitCall => ix.commit

def SIndex.run (ix : SIndex) (cs : List WriterCall) : SIndex :=
  cs.foldl SIndex.runCall ix

/-- Relative path stored in the index:
path.strip_prefix(start_dir).unwrap_or(path), displayed with slashes. -/
def relPath (startDir path : List String) : String :=
  if startDir.isPrefixOf path then joinWith "/" (path.drop startDir.length)
  else joinWith "/" path

/-- Field derivation shared by index_file and update_file: relative path,
file stem, and title taken from the first line starting with a hash mark
(leading hash marks stripped, trimmed), else the file stem. -/
def deriveEntry (startDir path : List String) (content : String) : Entry :=
  let fname := fileStem (lastComponent path)
  let title :=
    ((rustLines content).find? (fun l => startsWithChar '#' l)).map
      (fun l => trimStr (trimStartMatchesChar '#' l)) |>.getD fname
  ⟨relPath startDir path, fname, title, content⟩

/-- A file met by the directory walk: its path and the result of
fs::read_to_string, none meaning the read failed. -/
structure FsFile where
  path : List String
  content : Option String
deriving DecidableEq, Repr

/-- The entries index_directory derives: walk results are filtered by the
exact extension md, then each file that reads successfully yields one entry;
a failing read yields nothing. -/
def entriesOf (startDir : List String) (files : List FsFile) : List Entry :=
  files.filterMap (fun f =>
    if extension (lastComponent f.path) = some "md" then
      f.content.map (deriveEntry startDir f.path)
    else none)

/-- The writer calls index_directory performs: one add per successfully read
markdown file, then a single commit. -/
def indexDirectoryCalls (startDir : List String) (files : List FsFile) : List WriterCall :=
  (entriesOf startDir files).map WriterCall.addDoc ++ [WriterCall.commitCall]

/-- Log lines of the per-file loop body of index_directory: the source
prints nothing there, in either the success or the failed-read branch. -/
def indexFileLog (_f : FsFile) : List String := []

/-- Log lines printed by index_directory: an opening banner, nothing per
file, a closing banner. -/
def indexDirectoryLog (dir : String) (files : List FsFile) : List String :=
  ["Indexing markdown files in " ++ dir ++ "..."]
    ++ (files.map indexFileLog).flatten
    ++ ["Indexing complete!"]

/-- Embedding of index_directory (src/search.rs): walk the tree, index each
readable markdown file, commit once. The tantivy result type is kept even
though the modelled in-memory writer cannot fail, so that the absence of an
abort on a read error is part of the statement. -/
def index_directory (dir : String) (startDir : List String) (files : List FsFile)
    (ix : SIndex) : Except String (SIndex × List String) :=
  .ok (ix.run (indexDirectoryCalls startDir files), indexDirectoryLog dir files)

/-- Embedding of update_file (src/search.rs): no-op unless the exact
extension is md, abort on a read error, else delete the term for the
relative path, add the re-derived document and commit, all in one batch. -/
def update_file (startDir path : List String) (content : Option String)
    (ix : SIndex) : Except String SIndex :=
  if extension (lastComponent path) ≠ some "md" then .ok ix
  else
    match content with
    | none => .error "read failed"
    | some c =>
      let e := deriveEntry startDir path c
      .ok (((ix.deleteTerm e.path).addDoc e).commit)

/-! ### Search -/

/-- Model of the jieba tokenizer on ASCII word text: maximal alphanumeric
runs, case preserved (the source registers the bare tokenizer with no
lowercasing filter). -/
def tokenizeAux : List Char → List Char → List String
  | [], acc => if acc.isEmpty then [] else [String.mk acc.reverse]
  | c :: rest, acc =>
    if c.isAlphanum then tokenizeAux rest (c :: acc)
    else if acc.isEmpty then tokenizeAux rest []
    else String.mk acc.reverse :: tokenizeAux rest []

def tokenize (s : String) : List String :=
  tokenizeAux s.toList []

/-- Model of the tantivy query parser: a query with an unbalanced quote is a
parse error, otherwise the query is a disjunction of its tokens. -/
def parseQuery (q : String) : Except String (List String) :=
  if (q.toList.count '"') % 2 = 1 then .error "ParseError"
  else .ok (tokenize q)

/-- A search hit as serialised by the HTTP layer. -/
structure SearchResult where
  file_path : String
  file_name : String
  title : String
  snippet : String
deriving DecidableEq, Repr

/-- A document matches a token disjunction when some token occurs in its
tokenized file name, title or content, the three default query fields. -/
def entryMatches (toks : List String) (e : Entry) : Bool :=
  toks.any (fun t =>
    (tokenize e.file_name).contains t
      || (tokenize e.title).contains t
      || (tokenize e.content).contains t)

/-- Model of the snippet generator over the content field: the matched
tokens wrapped in bold markers. -/
def snippetOf (toks : List String) (content : String) : String :=
  joinWith " "
    ((toks.filter (fun t => (tokenize content).contains t)).map
      (fun t => "<b>" ++ t ++ "</b>"))

/-- Embedding of SearchIndex::search (src/search.rs): parse the query,
collect up to limit matching committed documents, return stored fields plus
a snippet. -/
def searchEntries (committed : List Entry) (q : String) (limit : Nat) :
    Except String (List SearchResult) := do
  let toks ← parseQuery q
  let hits := committed.filter (entryMatches toks)
  pure ((hits.take limit).map (fun e =>
    ⟨e.path, e.file_name, e.title, snippetOf toks e.content⟩))

/-- The application state fields read by search_handler: the search feature
flag and the shared index when one was built. -/
structure SearchAppState where
  enable_search : Bool
  search_index : Option (List Entry)

/-- Embedding of search_handler (src/search.rs): empty JSON array when
search is disabled or the query is empty or the index is missing, results
capped at 20 otherwise, and the empty array with a logged message when the
search call fails. -/
def search_handler (st : SearchAppState) (q : String) : List SearchResult :=
  if st.enable_search = false ∨ q = "" then []
  else
    match st.search_index with
    | none => []
    | some entries =>
      match searchEntries entries q 20 with
      | .ok rs => rs
      | .error _ => []

/-! ## Collaboration hub (src/server.rs, handle_socket)

The sqlite store is modelled as two row lists, sqlite INSERT OR REPLACE as
delete-of-the-conflicting-key followed by append, and the broadcast channel
as the list of messages a handler step publishes, fanned out by appending to
the outbox of every connected session. A storage write is given an explicit
success flag, modelling rusqlite execute returning Ok or Err. A Rust panic
raised by unwrap ends the receiving task; this outcome is recorded in an
explicit flag. Identifiers here shorten the annotation words of the source:
an AnnRow models a row of the annotations table, newAnn the new_annotation
message, deleteAnn delete_annotation, clearAnns clear_annotations, allAnns
all_annotations. -/

/-- A row of the annotations table: id TEXT PRIMARY KEY, file_path, data. -/
structure AnnRow where
  id : String
  file_path : String
  data : String
deriving DecidableEq, Repr

/-- A row of the viewed_state table: file_path TEXT PRIMARY KEY, state,
updated_at. -/
structure ViewedRow where
  file_path : String
  state : String
  updated_at : Nat
deriving DecidableEq, Repr

/-- The durable store behind the single mutex. -/
structure Store where
  anns : List AnnRow
  viewed : List ViewedRow
deriving DecidableEq, Repr

/-- The websocket message schema of src/server.rs. The payload of a client
annotation value is carried as its extracted id plus its serialised JSON
text, which is what the handler stores and rebroadcasts. -/
inductive WsMessage where
  | allAnns (anns : List String)
  | newAnn (id : String) (data : String)
  | deleteAnn (id : String)
  | clearAnns
  | viewedState (state : String)
  | updateViewedState (state : String)
deriving DecidableEq, Repr

/-- INSERT OR REPLACE INTO annotations: the row with a conflicting id is
replaced, the new row lands at the end. -/
def insertOrReplaceAnn (st : Store) (id fp data : String) : Store :=
  ⟨st.anns.filter (fun r => r.id ≠ id) ++ [⟨id, fp, data⟩], st.viewed⟩

/-- DELETE FROM annotations WHERE id = ?1 AND file_path = ?2. -/
def deleteAnnWhere (st : Store) (id fp : String) : Store :=
  ⟨st.anns.filter (fun r => ¬ (r.id = id ∧ r.file_path = fp)), st.viewed⟩

/-- DELETE FROM annotations WHERE file_path = ?1, returning the affected
row count the handler logs. -/
def clearAnnsWhere (st : Store) (fp : String) : Store × Nat :=
  (⟨st.anns.filter (fun r => r.file_path ≠ fp), st.viewed⟩,
   (st.anns.filter (fun r => r.file_path = fp)).length)

/-- INSERT OR REPLACE INTO viewed_state with the current timestamp. -/
def upsertViewed (st : Store) (fp stateJson : String) (now : Nat) : Store :=
  ⟨st.anns, st.viewed.filter (fun r => r.file_path ≠ fp) ++ [⟨fp, stateJson, now⟩]⟩

/-- The serialised empty JSON object. -/
def emptyJsonObject : String := "\x7b\x7d"

/-- Outcome of handling one inbound client message: the store after the
write, the messages published to the broadcast channel, the stderr lines,
and whether the task panicked (an unwrap on a failed write), which ends the
session. -/
structure StepResult where
  store : Store
  broadcast : List WsMessage
  log : List String
  panicked : Bool
deriving DecidableEq, Repr

/-- Embedding of the message dispatch of the receive task of handle_socket
(src/server.rs). fp is the file path the session declared in its first
frame, writeOk whether the sqlite execute succeeds. On a failed write the
source unwraps for new_annotation, delete_annotation and
update_viewed_state, panicking the task without a log line or a broadcast;
only clear_annotations matches on the error, logs it and carries on. -/
def recvStep (fp : String) (writeOk : Bool) (now : Nat) (st : Store) :
    WsMessage → StepResult
  | .newAnn id data =>
    if writeOk then
      ⟨insertOrReplaceAnn st id fp data, [.newAnn id data], [], false⟩
    else ⟨st, [], [], true⟩
  | .deleteAnn id =>
    if writeOk then
      ⟨deleteAnnWhere st id fp, [.deleteAnn id], [], false⟩
    else ⟨st, [], [], true⟩
  | .clearAnns =>
    if writeOk then
      let (st2, n) := clearAnnsWhere st fp
      ⟨st2, [.clearAnns],
       ["[WebSocket] Clearing annotations for file_path: " ++ fp,
        "[WebSocket] Deleted " ++ toString n
          ++ " annotation rows for file_path: " ++ fp],
       false⟩
    else
      ⟨st, [],
       ["[WebSocket] Clearing annotations for file_path: " ++ fp,
        "[WebSocket] Failed to clear annotations: storage error"],
       false⟩
  | .updateViewedState s =>
    if writeOk then
      ⟨upsertViewed st fp s now, [.viewedState s], [], false⟩
    else ⟨st, [], [], true⟩
  | _ => ⟨st, [], [], false⟩

/-- An inbound frame of the receive loop: either text that fails to parse as
a tagged message, which the loop skips, or a parsed message paired with the
success of its storage write. -/
inductive InEvent where
  | malformed
  | msg (m : WsMessage) (writeOk : Bool)
deriving DecidableEq, Repr

/-- The receive loop of handle_socket over a list of inbound frames: skip
malformed frames, dispatch the rest, stop when the task panics. Returns the
final store, the concatenated broadcasts and logs, and whether the loop
ended in a panic. -/
def recvLoop (fp : String) (now : Nat) :
    Store → List InEvent → Store × List WsMessage × List String × Bool
  | st, [] => (st, [], [], false)
  | st, .malformed :: rest => recvLoop fp now st rest
  | st, .msg m ok :: rest =>
    let r := recvStep fp ok now st m
    if r.panicked then (r.store, r.broadcast, r.log, true)
    else
      let (st2, bs, ls, p) := recvLoop fp now r.store rest
      (st2, r.broadcast ++ bs, r.log ++ ls, p)

/-- The broadcast message a successfully persisted mutation publishes, none
for the message kinds the dispatch ignores. None of the published messages
carries a file path. -/
def mutationBroadcast : WsMessage → Option WsMessage
  | .newAnn id data => some (.newAnn id data)
  | .deleteAnn id => some (.deleteAnn id)
  | .clearAnns => some .clearAnns
  | .updateViewedState s => some (.viewedState s)
  | _ => none

/-- One connected session: the file path its first frame declared and its
outbound queue. -/
structure Session where
  filePath : String
  outbox : List WsMessage
deriving DecidableEq, Repr

/-- The process-wide hub: the shared store and every connected session,
each holding a receive handle of the single broadcast channel. -/
structure Hub where
  store : Store
  sessions : List Session
deriving DecidableEq, Repr

/-- One hub step: a session with declared path senderFp sends message m; the
dispatch runs against the shared store and the send
task of every connected session appends every published message to its outbox, with no filtering. -/
def hubStep (hub : Hub) (senderFp : String) (writeOk : Bool) (now : Nat)
    (m : WsMessage) : Hub × Bool :=
  let r := recvStep senderFp writeOk now hub.store m
  (⟨r.store, hub.sessions.map (fun s => ⟨s.filePath, s.outbox ++ r.broadcast⟩)⟩,
   r.panicked)

/-- The state the viewed-state replay sends: the stored row for the file
path, else the empty JSON object. -/
def viewedOrEmpty (st : Store) (fp : String) : String :=
  ((st.viewed.find? (fun r => r.file_path = fp)).map ViewedRow.state).getD
    emptyJsonObject

/-- Embedding of the replay phase of handle_socket (src/server.rs): after
the first frame declares fp, and before the relay tasks start, the server
sends the data of every stored annotation row whose file_path is fp, then
the stored viewed state for fp or the empty object. -/
def handshakeReplies (st : Store) (fp : String) : List WsMessage :=
  [WsMessage.allAnns ((st.anns.filter (fun r => r.file_path = fp)).map AnnRow.data),
   WsMessage.viewedState (viewedOrEmpty st fp)]

/-! ## Theorems -/

/-- C1: for every requested URL path, handle_path URL-decodes the path,
joins it under the configured root, canonicalises the result and only then
checks containment: a failed canonicalisation yields NotFound, a canonical
path not under the root yields Forbidden, and every file the handler reads
or serves, including for request paths with parent segments or symlinks,
has a canonical path under the root - the rendered-markdown read path is
the joined full path, whose canonical form is the checked one, and the
static read path is the checked canonical path itself. -/
theorem resolver_sandbox (fs : Fs) (decode : String → Option String)
    (startDir : List String) (raw : String) :
    (fs.canonicalize (requestFullPath decode startDir raw) = none →
      handle_path fs decode startDir raw = HandleResult.notFound (decodedOf decode raw)) ∧
    (∀ c, fs.canonicalize (requestFullPath decode startDir raw) = some c →
      startDir.isPrefixOf c = false →
      handle_path fs decode startDir raw = HandleResult.forbidden) ∧
    (∀ rp c, (handle_path fs decode startDir raw).servedFile = some (rp, c) →
      startDir.isPrefixOf c = true) ∧
    (∀ rp c, handle_path fs decode startDir raw = HandleResult.renderedMarkdown rp c →
      rp = requestFullPath decode startDir raw ∧ fs.canonicalize rp = some c) ∧
    (∀ c, handle_path fs decode startDir raw = HandleResult.staticFile c →
      fs.canonicalize (requestFullPath decode startDir raw) = some c) := by
  refine ⟨?_, ?_, ?_, ?_, ?_⟩
  · intro h
    simp [handle_path, h]
  · intro c hc hp
    simp [handle_path, hc, hp]
  · intro rp c h
    unfold handle_path at h
    cases hc : fs.canonicalize (requestFullPath decode startDir raw) with
    | none => rw [hc] at h; simp [HandleResult.servedFile] at h
    | some c0 =>
      rw [hc] at h
      by_cases hp : startDir.isPrefixOf c0
      · simp only [hp, not_true_eq_false, if_false] at h
        by_cases hf : fs.isFile c0
        · simp only [hf, if_true] at h
          by_cases hm : mdServe (lastComponent c0)
          · simp only [hm, if_true, HandleResult.servedFile] at h
            obtain ⟨-, rfl⟩ := Prod.mk.injEq .. ▸ Option.some.injEq .. ▸ h
            exact hp
          · simp only [hm, if_false, HandleResult.servedFile] at h
            obtain ⟨-, rfl⟩ := Prod.mk.injEq .. ▸ Option.some.injEq .. ▸ h
            exact hp
        · simp only [hf, if_false] at h
          by_cases hd : fs.isDir c0 <;>
            simp [hd, HandleResult.servedFile] at h
      · simp [hp, HandleResult.servedFile] at h
  · intro rp c h
    unfold handle_path at h
    cases hc : fs.canonicalize (requestFullPath decode startDir raw) with
    | none => rw [hc] at h; simp at h
    | some c0 =>
      rw [hc] at h
      by_cases hp : startDir.isPrefixOf c0
      · simp only [hp, not_true_eq_false, if_false] at h
        by_cases hf : fs.isFile c0
        · simp only [hf, if_true] at h
          by_cases hm : mdServe (lastComponent c0)
          · simp only [hm, if_true] at h
            obtain ⟨rfl, rfl⟩ := HandleResult.renderedMarkdown.injEq .. ▸ h
            exact ⟨rfl, hc⟩
          · simp [hm] at h
        · simp only [hf, if_false] at h
          by_cases hd : fs.isDir c0 <;> simp [hd] at h
      · simp [hp] at h
  · intro c h
    unfold handle_path at h
    cases hc : fs.canonicalize (requestFullPath decode startDir raw) with
    | none => rw [hc] at h; simp at h
    | some c0 =>
      rw [hc] at h
      by_cases hp : startDir.isPrefixOf c0
      · simp only [hp, not_true_eq_false, if_false] at h
        by_cases hf : fs.isFile c0
        · simp only [hf, if_true] at h
          by_cases hm : mdServe (lastComponent c0)
          · simp [hm] at h
          · simp only [hm, if_false] at h
            injection h with h1
            subst h1
            rfl
        · simp only [hf, if_false] at h
          by_cases hd : fs.isDir c0 <;> simp [hd] at h
      · simp [hp] at h

/-- Witness for C1 on the concrete demo filesystem: a missing path yields
NotFound, a symlink escaping the root yields Forbidden, and a parent
traversal escaping the root yields Forbidden. -/
theorem resolver_sandbox_witness :
    handle_path demoFs some ["home", "docs"] "missing.md" =
      HandleResult.notFound "missing.md" ∧
    handle_path demoFs some ["home", "docs"] "link.md" = HandleResult.forbidden ∧
    handle_path demoFs some ["home", "docs"] "../etc/secret.md" =
      HandleResult.forbidden := by
  refine ⟨?_, ?_, ?_⟩
  · exact (resolver_sandbox demoFs some ["home", "docs"] "missing.md").1 (by decide)
  · exact (resolver_sandbox demoFs some ["home", "docs"] "link.md").2.1
      ["etc", "secret.md"] (by decide) (by decide)
  · exact (resolver_sandbox demoFs some ["home", "docs"] "../etc/secret.md").2.1
      ["etc", "secret.md"] (by decide) (by decide)

/-- C10: markdown detection is case-insensitive when serving but
case-sensitive when indexing: a file whose extension lowercases to md is
rendered as a markdown page by the path handler, while the walk filter of
index_directory and the guard of update_file compare the extension to the
exact string md, so such a file contributes no index entry and update_file
leaves the index untouched. -/
theorem md_case_mismatch (e : String) (he : strToLower e = "md") (hne : e ≠ "md") :
    (∀ fs decode startDir raw c,
      fs.canonicalize (requestFullPath decode startDir raw) = some c →
      startDir.isPrefixOf c = true →
      fs.isFile c = true →
      extension (lastComponent c) = some e →
      handle_path fs decode startDir raw =
        HandleResult.renderedMarkdown (requestFullPath decode startDir raw) c) ∧
    (∀ startDir f, extension (lastComponent f.path) = some e →
      entriesOf startDir [f] = []) ∧
    (∀ startDir p content ix, extension (lastComponent p) = some e →
      update_file startDir p content ix = .ok ix) := by
  refine ⟨?_, ?_, ?_⟩
  · intro fs decode startDir raw c hc hp hf hx
    have hm : mdServe (lastComponent c) = true := by
      unfold mdServe
      rw [hx]
      simp [he]
    simp [handle_path, hc, hp, hf, hm]
  · intro startDir f hx
    have : ¬ (extension (lastComponent f.path) = some "md") := by
      rw [hx]
      intro h
      exact hne (Option.some.injEq .. ▸ h)
    simp [entriesOf, this]
  · intro startDir p content ix hx
    have : extension (lastComponent p) ≠ some "md" := by
      rw [hx]
      intro h
      exact hne (Option.some.injEq .. ▸ h)
    simp [update_file, this]

/-- Witness for C10: the file X.MD on the demo filesystem is served
rendered, yields no entry in a directory scan, and is ignored by
update_file. -/
theorem md_case_mismatch_witness :
    handle_path demoFs some ["home", "docs"] "X.MD" =
      HandleResult.renderedMarkdown ["home", "docs", "X.MD"] ["home", "docs", "X.MD"] ∧
    entriesOf ["home", "docs"] [⟨["home", "docs", "X.MD"], some "# T"⟩] = [] ∧
    update_file ["home", "docs"] ["home", "docs", "X.MD"] (some "# T") ⟨[], []⟩ =
      .ok ⟨[], []⟩ := by
  have h := md_case_mismatch "MD" (by decide) (by decide)
  refine ⟨?_, ?_, ?_⟩
  · exact h.1 demoFs some ["home", "docs"] "X.MD" ["home", "docs", "X.MD"]
      (by decide) (by decide) (by decide) (by decide)
  · exact h.2.1 ["home", "docs"] ⟨["home", "docs", "X.MD"], some "# T"⟩ (by decide)
  · exact h.2.2 ["home", "docs"] ["home", "docs", "X.MD"] (some "# T") ⟨[], []⟩
      (by decide)

/-! ### Index writer lemmas -/

theorem foldl_applyWOp_addDocs (cs : List Entry) (es : List Entry) :
    (es.map WOp.addDoc).foldl applyWOp cs = cs ++ es := by
  induction es generalizing cs with
  | nil => simp
  | cons e rest ih =>
    simp only [List.map_cons, List.foldl_cons, applyWOp, ih, List.append_assoc,
      List.singleton_append]

theorem run_addDocs (ix : SIndex) (es : List Entry) :
    SIndex.run ix (es.map WriterCall.addDoc) =
      ⟨ix.committed, ix.pending ++ es.map WOp.addDoc⟩ := by
  induction es generalizing ix with
  | nil => simp [SIndex.run]
  | cons e rest ih =>
    show SIndex.run (ix.addDoc e) (rest.map WriterCall.addDoc) = _
    rw [ih]
    simp [SIndex.addDoc, List.append_assoc]

theorem run_commit_last (ix : SIndex) (a : List WriterCall) :
    SIndex.run ix (a ++ [WriterCall.commitCall]) = (SIndex.run ix a).commit := by
  simp [SIndex.run, List.foldl_append, SIndex.runCall]

/-- The value index_directory computes: adds for every successfully read
markdown file folded into the committed list by the single final commit. -/
theorem index_directory_eq (dir : String) (sd : List String) (files : List FsFile)
    (ix : SIndex) :
    index_directory dir sd files ix =
      Except.ok
        (⟨(ix.pending ++ (entriesOf sd files).map WOp.addDoc).foldl applyWOp ix.committed, []⟩,
         indexDirectoryLog dir files) := by
  unfold index_directory indexDirectoryCalls
  rw [run_commit_last, run_addDocs]
  simp [SIndex.commit, List.foldl_append]

/-- The value update_file computes on a readable markdown file: the entries
with the same relative path deleted, the re-derived entry appended, in one
commit. -/
theorem update_file_eq (sd p : List String) (c : String) (ix : SIndex)
    (hmd : extension (lastComponent p) = some "md") :
    update_file sd p (some c) ix =
      Except.ok
        ⟨(ix.pending.foldl applyWOp ix.committed).filter
            (fun x => x.path ≠ (deriveEntry sd p c).path) ++ [deriveEntry sd p c], []⟩ := by
  unfold update_file
  simp only [hmd, ne_eq, not_true_eq_false, if_false]
  simp [SIndex.commit, SIndex.addDoc, SIndex.deleteTerm, List.foldl_append, applyWOp]

theorem deriveEntry_path (sd p : List String) (c : String) :
    (deriveEntry sd p c).path = relPath sd p := rfl

/-- C3: at most one index entry per relative path after a commit: a full
scan adds one entry per readable markdown file, so distinct relative paths
give pairwise distinct entry paths; upsert deletes every entry with the
same relative path before adding the re-derived one inside the same
commit, preserving distinctness and leaving exactly one entry for the
path; and a second upsert with identical content returns the index
unchanged, so searches after it agree with searches after the first. -/
theorem index_unique_path_invariant (sd : List String) :
    (∀ dir files res log,
      index_directory dir sd files (⟨[], []⟩ : SIndex) = Except.ok (res, log) →
      res.committed = entriesOf sd files ∧
      ((entriesOf sd files).Pairwise (fun a b => a.path ≠ b.path) →
        res.committed.Pairwise (fun a b => a.path ≠ b.path))) ∧
    (∀ p c ix ix₁, update_file sd p (some c) ix = Except.ok ix₁ →
      ix.committed.Pairwise (fun a b => a.path ≠ b.path) →
      ix.pending = [] →
      ix₁.committed.Pairwise (fun a b => a.path ≠ b.path)) ∧
    (∀ p c ix ix₁, extension (lastComponent p) = some "md" →
      update_file sd p (some c) ix = Except.ok ix₁ →
      (ix₁.committed.filter (fun x => x.path = relPath sd p)).length = 1) ∧
    (∀ p content ix ix₁, update_file sd p content ix = Except.ok ix₁ →
      update_file sd p content ix₁ = Except.ok ix₁ ∧
      (∀ ix₂ q n, update_file sd p content ix₁ = Except.ok ix₂ →
        searchEntries ix₂.committed q n = searchEntries ix₁.committed q n)) := by
  refine ⟨?_, ?_, ?_, ?_⟩
  · intro dir files res log h
    rw [index_directory_eq] at h
    obtain ⟨h1, -⟩ := Prod.mk.injEq .. ▸ Except.ok.injEq .. ▸ h
    have hc : res.committed = entriesOf sd files := by
      rw [← h1]
      simpa using (foldl_applyWOp_addDocs [] (entriesOf sd files)).symm ▸ rfl
    refine ⟨hc, fun hp => ?_⟩
    rw [hc]
    exact hp
  · intro p c ix ix₁ h hpw hpend
    by_cases hmd : extension (lastComponent p) = some "md"
    · rw [update_file_eq sd p c ix hmd] at h
      obtain rfl := (Except.ok.injEq .. ▸ h).symm
      simp only [hpend, List.foldl_nil]
      apply List.pairwise_append.mpr
      refine ⟨List.Pairwise.filter _ hpw, List.pairwise_singleton .., ?_⟩
      intro a ha b hb
      obtain rfl : b = deriveEntry sd p c := List.mem_singleton.mp hb
      have := List.of_mem_filter ha
      simpa using this
    · unfold update_file at h
      simp only [hmd, ne_eq, not_false_eq_true, if_true] at h
      obtain rfl := (Except.ok.injEq .. ▸ h).symm
      exact hpw
  · intro p c ix ix₁ hmd h
    rw [update_file_eq sd p c ix hmd] at h
    obtain rfl := (Except.ok.injEq .. ▸ h).symm
    rw [List.filter_append]
    have h0 : ((ix.pending.foldl applyWOp ix.committed).filter
        (fun x => x.path ≠ (deriveEntry sd p c).path)).filter
          (fun x => x.path = relPath sd p) = [] := by
      apply List.filter_eq_nil_iff.mpr
      intro a ha h2
      have h3 := List.of_mem_filter ha
      rw [deriveEntry_path] at h3
      simp only [ne_eq, decide_not, Bool.not_eq_true', decide_eq_false_iff_not] at h3
      exact h3 (by simpa using h2)
    rw [h0]
    simp [deriveEntry_path]
  · intro p content ix ix₁ h
    have hsecond : update_file sd p content ix₁ = Except.ok ix₁ := by
      by_cases hmd : extension (lastComponent p) = some "md"
      · cases content with
        | none =>
          unfold update_file at h
          simp [hmd] at h
        | some c =>
          rw [update_file_eq sd p c ix hmd] at h
          obtain rfl := (Except.ok.injEq .. ▸ h).symm
          rw [update_file_eq sd p c _ hmd]
          congr 1
          refine SIndex.mk.injEq .. ▸ ⟨?_, rfl⟩
          simp only [List.foldl_nil, List.filter_append]
          rw [List.filter_filter]
          have h2 : List.filter (fun x => decide (x.path ≠ (deriveEntry sd p c).path))
              [deriveEntry sd p c] = [] := by simp
          simp [h2]
      · unfold update_file at h
        simp only [hmd, ne_eq, not_false_eq_true, if_true] at h
        obtain rfl := (Except.ok.injEq .. ▸ h).symm
        unfold update_file
        simp [hmd]
    refine ⟨hsecond, fun ix₂ q n h2 => ?_⟩
    rw [hsecond] at h2
    obtain rfl := (Except.ok.injEq .. ▸ h2).symm
    rfl

/-- Witness for C3: a concrete double upsert of the same content leaves the
one-entry index unchanged, with exactly one entry for the path. -/
theorem index_unique_path_invariant_witness :
    update_file ["r"] ["r", "doc.md"] (some "# T\nbody")
        ⟨[deriveEntry ["r"] ["r", "doc.md"] "# T\nbody"], []⟩ =
      Except.ok ⟨[deriveEntry ["r"] ["r", "doc.md"] "# T\nbody"], []⟩ ∧
    ((⟨[deriveEntry ["r"] ["r", "doc.md"] "# T\nbody"], []⟩ : SIndex).committed.filter
        (fun x => x.path = relPath ["r"] ["r", "doc.md"])).length = 1 := by
  have hfirst : update_file ["r"] ["r", "doc.md"] (some "# T\nbody") (⟨[], []⟩ : SIndex) =
      Except.ok ⟨[deriveEntry ["r"] ["r", "doc.md"] "# T\nbody"], []⟩ := by rfl
  refine ⟨?_, ?_⟩
  · exact ((index_unique_path_invariant ["r"]).2.2.2 ["r", "doc.md"]
      (some "# T\nbody") ⟨[], []⟩ _ hfirst).1
  · exact (index_unique_path_invariant ["r"]).2.2.1 ["r", "doc.md"] "# T\nbody"
      ⟨[], []⟩ _ (by decide) hfirst

theorem flatten_indexFileLog (files : List FsFile) :
    (files.map indexFileLog).flatten = [] := by
  induction files with
  | nil => rfl
  | cons f rest ih => simp [indexFileLog, ih]

/-- C7 (amended): an error reading an individual file only skips that file,
silently: the scan always returns ok (a per-file read error never aborts
it), removing an unreadable file from the walk changes no derived entry,
exactly one commit is performed, and the log holds only the two banner
lines, with no line for the failed read. -/
theorem index_scan_skips_unreadable (dir : String) (sd : List String)
    (ix : SIndex) (hpend : ix.pending = []) :
    (∀ files, index_directory dir sd files ix =
      Except.ok (⟨ix.committed ++ entriesOf sd files, []⟩, indexDirectoryLog dir files)) ∧
    (∀ pre post bad, bad.content = none →
      entriesOf sd (pre ++ bad :: post) = entriesOf sd (pre ++ post)) ∧
    (∀ files, (indexDirectoryCalls sd files).count WriterCall.commitCall = 1) ∧
    (∀ files, indexDirectoryLog dir files =
      ["Indexing markdown files in " ++ dir ++ "...", "Indexing complete!"]) := by
  refine ⟨?_, ?_, ?_, ?_⟩
  · intro files
    rw [index_directory_eq]
    rw [hpend]
    simp [foldl_applyWOp_addDocs]
  · intro pre post bad hbad
    unfold entriesOf
    rw [List.filterMap_append, List.filterMap_append, List.filterMap_cons]
    have hz : (if extension (lastComponent bad.path) = some "md" then
        bad.content.map (deriveEntry sd bad.path) else none) = none := by
      rw [hbad]
      by_cases h : extension (lastComponent bad.path) = some "md" <;> simp [h]
    rw [hz]
  · intro files
    unfold indexDirectoryCalls
    rw [List.count_append]
    have h0 : ((entriesOf sd files).map WriterCall.addDoc).count WriterCall.commitCall = 0 := by
      apply List.count_eq_zero.mpr
      intro hmem
      obtain ⟨e, -, he⟩ := List.mem_map.mp hmem
      exact WriterCall.noConfusion he
    rw [h0]
    rfl
  · intro files
    unfold indexDirectoryLog
    rw [flatten_indexFileLog]
    rfl

/-- Witness for C7 on a concrete scan with one unreadable file between two
readable ones. -/
theorem index_scan_skips_unreadable_witness :
    index_directory "/r" ["r"]
        [⟨["r", "g1.md"], some "# A"⟩, ⟨["r", "bad.md"], none⟩,
         ⟨["r", "g2.md"], some "# B"⟩] ⟨[], []⟩ =
      Except.ok
        (⟨[] ++ entriesOf ["r"]
            [⟨["r", "g1.md"], some "# A"⟩, ⟨["r", "bad.md"], none⟩,
             ⟨["r", "g2.md"], some "# B"⟩], []⟩,
         indexDirectoryLog "/r"
            [⟨["r", "g1.md"], some "# A"⟩, ⟨["r", "bad.md"], none⟩,
             ⟨["r", "g2.md"], some "# B"⟩]) :=
  (index_scan_skips_unreadable "/r" ["r"] ⟨[], []⟩ rfl).1
    [⟨["r", "g1.md"], some "# A"⟩, ⟨["r", "bad.md"], none⟩, ⟨["r", "g2.md"], some "# B"⟩]

/-- Counterexample for C7 as stated: the claim says a read error is logged,
but the source skips the file with no output at all - on a concrete scan
where bad.md fails to read, the whole result, its log included, is
identical to the scan without bad.md, and the log is exactly the two
banner lines. -/
theorem index_read_error_unlogged :
    index_directory "/r" ["r"]
        [⟨["r", "g1.md"], some "# A"⟩, ⟨["r", "bad.md"], none⟩,
         ⟨["r", "g2.md"], some "# B"⟩] ⟨[], []⟩ =
      index_directory "/r" ["r"]
        [⟨["r", "g1.md"], some "# A"⟩, ⟨["r", "g2.md"], some "# B"⟩] ⟨[], []⟩ ∧
    indexDirectoryLog "/r"
        [⟨["r", "g1.md"], some "# A"⟩, ⟨["r", "bad.md"], none⟩,
         ⟨["r", "g2.md"], some "# B"⟩] =
      ["Indexing markdown files in /r...", "Indexing complete!"] := by
  exact ⟨rfl, rfl⟩

/-- C8: the search endpoint returns a JSON array of at most 20 results, and
the empty array when the query is empty, search is disabled, the index is
missing, or the query fails to parse - never an error response. -/
theorem search_handler_spec (st : SearchAppState) (q : String) :
    (search_handler st q).length ≤ 20 ∧
    (q = "" → search_handler st q = []) ∧
    (st.enable_search = false → search_handler st q = []) ∧
    (st.search_index = none → search_handler st q = []) ∧
    (∀ err, parseQuery q = Except.error err → search_handler st q = []) := by
  have hcases : ∀ r : List SearchResult, search_handler st q = r →
      r = [] ∨ ∃ entries toks, st.search_index = some entries ∧
        parseQuery q = Except.ok toks ∧
        r = ((entries.filter (entryMatches toks)).take 20).map
          (fun e => ⟨e.path, e.file_name, e.title, snippetOf toks e.content⟩) := by
    intro r hr
    unfold search_handler at hr
    by_cases h1 : st.enable_search = false ∨ q = ""
    · left; rw [if_pos h1] at hr; exact hr.symm
    · rw [if_neg h1] at hr
      cases hs : st.search_index with
      | none => rw [hs] at hr; left; exact hr.symm
      | some entries =>
        rw [hs] at hr
        cases hq : parseQuery q with
        | error e =>
          left
          unfold searchEntries at hr
          rw [hq] at hr
          exact hr.symm
        | ok toks =>
          right
          refine ⟨entries, toks, rfl, rfl, ?_⟩
          unfold searchEntries at hr
          rw [hq] at hr
          simp only [Except.bind] at hr
          exact hr.symm
  refine ⟨?_, ?_, ?_, ?_, ?_⟩
  · rcases hcases (search_handler st q) rfl with h | ⟨entries, toks, -, -, h⟩
    · rw [h]; exact Nat.zero_le 20
    · rw [h, List.length_map, List.length_take]
      exact min_le_left ..
  · intro h
    unfold search_handler
    rw [if_pos (Or.inr h)]
  · intro h
    unfold search_handler
    rw [if_pos (Or.inl h)]
  · intro h
    unfold search_handler
    by_cases h1 : st.enable_search = false ∨ q = ""
    · rw [if_pos h1]
    · rw [if_neg h1, h]
  · intro err h
    unfold search_handler
    by_cases h1 : st.enable_search = false ∨ q = ""
    · rw [if_pos h1]
    · rw [if_neg h1]
      cases hs : st.search_index with
      | none => rfl
      | some entries =>
        unfold searchEntries
        rw [h]
        rfl

/-- Witness for C8: concrete calls with an enabled one-document index, an
empty query, a disabled flag and an unbalanced-quote query. -/
theorem search_handler_spec_witness :
    (search_handler ⟨true, some [deriveEntry ["r"] ["r", "a.md"] "# A\nv1"]⟩ "v1").length
      ≤ 20 ∧
    search_handler ⟨true, some []⟩ "" = [] ∧
    search_handler ⟨false, some []⟩ "v1" = [] ∧
    search_handler ⟨true, some []⟩ "\"v1" = [] := by
  refine ⟨?_, ?_, ?_, ?_⟩
  · exact (search_handler_spec ⟨true, some [deriveEntry ["r"] ["r", "a.md"] "# A\nv1"]⟩
      "v1").1
  · exact (search_handler_spec ⟨true, some []⟩ "").2.1 rfl
  · exact (search_handler_spec ⟨false, some []⟩ "v1").2.2.1 rfl
  · exact (search_handler_spec ⟨true, some []⟩ "\"v1").2.2.2.2 "ParseError" (by rfl)

theorem searchEntries_ok (committed : List Entry) (q : String) (toks : List String)
    (limit : Nat) (h : parseQuery q = Except.ok toks) :
    searchEntries committed q limit =
      Except.ok (((committed.filter (entryMatches toks)).take limit).map
        (fun e => ⟨e.path, e.file_name, e.title, snippetOf toks e.content⟩)) := by
  unfold searchEntries
  rw [h]
  rfl

/-- C6: the update round-trip: when the entries matching the tokens v1 or
v2 are exactly those stored for the path p (p was indexed with content
containing v1), and upsert replaces the content of p with content matching v2
and no longer v1, then searching v1 finds nothing and searching v2 finds
exactly one hit, whose stored path is the relative path of p. -/
theorem update_round_trip (sd p : List String) (c2 : String) (ix : SIndex)
    (hmd : extension (lastComponent p) = some "md")
    (hpend : ix.pending = [])
    (hv1 : ∀ e ∈ ix.committed, entryMatches ["v1"] e = true → e.path = relPath sd p)
    (hv2 : ∀ e ∈ ix.committed, entryMatches ["v2"] e = true → e.path = relPath sd p)
    (hnew1 : entryMatches ["v1"] (deriveEntry sd p c2) = false)
    (hnew2 : entryMatches ["v2"] (deriveEntry sd p c2) = true) :
    ∀ ix₁, update_file sd p (some c2) ix = Except.ok ix₁ →
      searchEntries ix₁.committed "v1" 20 = Except.ok [] ∧
      ∃ r, searchEntries ix₁.committed "v2" 20 = Except.ok [r] ∧
        r.file_path = relPath sd p := by
  intro ix₁ h
  rw [update_file_eq sd p c2 ix hmd] at h
  obtain rfl := (Except.ok.injEq .. ▸ h).symm
  have hq1 : parseQuery "v1" = Except.ok ["v1"] := rfl
  have hq2 : parseQuery "v2" = Except.ok ["v2"] := rfl
  have hfilter : ∀ (t : String),
      (∀ e ∈ ix.committed, entryMatches [t] e = true → e.path = relPath sd p) →
      ((ix.pending.foldl applyWOp ix.committed).filter
          (fun x => x.path ≠ (deriveEntry sd p c2).path)).filter
        (entryMatches [t]) = [] := by
    intro t ht
    rw [hpend]
    simp only [List.foldl_nil]
    apply List.filter_eq_nil_iff.mpr
    intro a ha hmatch
    have h3 := List.of_mem_filter ha
    have h4 := List.mem_of_mem_filter ha
    rw [deriveEntry_path] at h3
    simp only [ne_eq, decide_not, Bool.not_eq_true', decide_eq_false_iff_not] at h3
    exact h3 (ht a h4 hmatch)
  constructor
  · rw [searchEntries_ok _ "v1" ["v1"] 20 hq1]
    rw [List.filter_append, hfilter "v1" hv1]
    have h5 : List.filter (entryMatches ["v1"]) [deriveEntry sd p c2] = [] := by
      simp [hnew1]
    rw [h5]
    rfl
  · refine ⟨⟨(deriveEntry sd p c2).path, (deriveEntry sd p c2).file_name,
      (deriveEntry sd p c2).title, snippetOf ["v2"] (deriveEntry sd p c2).content⟩,
      ?_, ?_⟩
    · rw [searchEntries_ok _ "v2" ["v2"] 20 hq2]
      rw [List.filter_append, hfilter "v2" hv2]
      have h5 : List.filter (entryMatches ["v2"]) [deriveEntry sd p c2] =
          [deriveEntry sd p c2] := by simp [hnew2]
      rw [h5]
      rfl
    · exact deriveEntry_path sd p c2

/-- Witness for C6: one document indexed with v1, upserted to v2, on
concrete strings. -/
theorem update_round_trip_witness :
    searchEntries [deriveEntry ["r"] ["r", "doc.md"] "# T\nhello v2 world"] "v1" 20 =
      Except.ok [] ∧
    ∃ r, searchEntries [deriveEntry ["r"] ["r", "doc.md"] "# T\nhello v2 world"] "v2" 20 =
      Except.ok [r] ∧ r.file_path = relPath ["r"] ["r", "doc.md"] := by
  have h := update_round_trip ["r"] ["r", "doc.md"] "# T\nhello v2 world"
    ⟨[deriveEntry ["r"] ["r", "doc.md"] "# T\nhello v1 world"], []⟩
    (by decide) rfl (by decide) (by decide) (by decide) (by decide)
    ⟨[deriveEntry ["r"] ["r", "doc.md"] "# T\nhello v2 world"], []⟩ (by rfl)
  exact h

/-! ### Collaboration hub theorems -/

/-- Counterexample for C2 as stated: the claim says a failed durable write
is logged, suppresses only the broadcast and keeps the session alive for
every mutation kind, but on a concrete session whose new_annotation write
fails, the receive loop panics with no log line, publishes nothing, and
never processes the following message: the whole run equals the store
unchanged, no broadcast, no log, panicked. -/
theorem storage_failure_counterexample :
    recvLoop "a.md" 0 ⟨[], []⟩
        [InEvent.msg (WsMessage.newAnn "x" "d") false,
         InEvent.msg (WsMessage.newAnn "y" "d2") true] =
      (⟨[], []⟩, [], [], true) := rfl

/-- C2 (amended): a failed durable write always suppresses the broadcast
and leaves the store unchanged, but only clear_annotations logs the error
and keeps the session alive and processing subsequent messages; for
new_annotation, delete_annotation and update_viewed_state the handler
unwraps the error, panicking the receive task with no log line and ending
the session before any subsequent message. -/
theorem storage_failure_behavior (fp : String) (now : Nat) (st : Store)
    (m b : WsMessage) (hmut : mutationBroadcast m = some b) :
    (recvStep fp false now st m).broadcast = [] ∧
    (recvStep fp false now st m).store = st ∧
    (m = WsMessage.clearAnns →
      (recvStep fp false now st m).panicked = false ∧
      (recvStep fp false now st m).log ≠ [] ∧
      (∀ rest, (recvLoop fp now st (InEvent.msg m false :: rest)).1 =
          (recvLoop fp now st rest).1 ∧
        (recvLoop fp now st (InEvent.msg m false :: rest)).2.2.2 =
          (recvLoop fp now st rest).2.2.2)) ∧
    (m ≠ WsMessage.clearAnns →
      (recvStep fp false now st m).panicked = true ∧
      (recvStep fp false now st m).log = [] ∧
      ∀ rest, recvLoop fp now st (InEvent.msg m false :: rest) =
        (st, [], [], true)) := by
  cases m with
  | newAnn id data =>
    refine ⟨rfl, rfl, ?_, ?_⟩
    · intro h
      exact WsMessage.noConfusion h
    · intro _
      refine ⟨rfl, rfl, fun rest => ?_⟩
      simp [recvLoop, recvStep]
  | deleteAnn id =>
    refine ⟨rfl, rfl, ?_, ?_⟩
    · intro h
      exact WsMessage.noConfusion h
    · intro _
      refine ⟨rfl, rfl, fun rest => ?_⟩
      simp [recvLoop, recvStep]
  | clearAnns =>
    refine ⟨rfl, rfl, ?_, fun h => absurd rfl h⟩
    intro _
    refine ⟨rfl, by simp [recvStep], fun rest => ?_⟩
    constructor <;> simp [recvLoop, recvStep]
  | updateViewedState s =>
    refine ⟨rfl, rfl, ?_, ?_⟩
    · intro h
      exact WsMessage.noConfusion h
    · intro _
      refine ⟨rfl, rfl, fun rest => ?_⟩
      simp [recvLoop, recvStep]
  | allAnns anns => exact absurd hmut (by simp [mutationBroadcast])
  | viewedState s => exact absurd hmut (by simp [mutationBroadcast])

/-- Witness for C2 (amended) at a concrete failing clear and a concrete
failing insert. -/
theorem storage_failure_behavior_witness :
    (recvStep "a.md" false 0 ⟨[], []⟩ WsMessage.clearAnns).panicked = false ∧
    (recvStep "a.md" false 0 ⟨[], []⟩ WsMessage.clearAnns).log ≠ [] ∧
    (recvStep "a.md" false 0 ⟨[], []⟩ (WsMessage.newAnn "x" "d")).panicked = true ∧
    (recvStep "a.md" false 0 ⟨[], []⟩ (WsMessage.newAnn "x" "d")).log = [] := by
  refine ⟨?_, ?_, ?_, ?_⟩
  · exact ((storage_failure_behavior "a.md" 0 ⟨[], []⟩ WsMessage.clearAnns
      WsMessage.clearAnns rfl).2.2.1 rfl).1
  · exact ((storage_failure_behavior "a.md" 0 ⟨[], []⟩ WsMessage.clearAnns
      WsMessage.clearAnns rfl).2.2.1 rfl).2.1
  · exact ((storage_failure_behavior "a.md" 0 ⟨[], []⟩ (WsMessage.newAnn "x" "d")
      (WsMessage.newAnn "x" "d") rfl).2.2.2 (by decide)).1
  · exact ((storage_failure_behavior "a.md" 0 ⟨[], []⟩ (WsMessage.newAnn "x" "d")
      (WsMessage.newAnn "x" "d") rfl).2.2.2 (by decide)).2.1

/-- C4: a successfully persisted mutation publishes exactly one message to
the single shared channel, and the hub step appends it to the outbox of
every connected session, in order, with no filtering on any file path: the
new session list is exactly the old one with the same message appended to
each outbox, whatever file path each session declared. -/
theorem broadcast_unfiltered (hub : Hub) (senderFp : String) (now : Nat)
    (m b : WsMessage) (hmut : mutationBroadcast m = some b) :
    (recvStep senderFp true now hub.store m).broadcast = [b] ∧
    (hubStep hub senderFp true now m).1.sessions =
      hub.sessions.map (fun s => ⟨s.filePath, s.outbox ++ [b]⟩) ∧
    ∀ s ∈ hub.sessions,
      Session.mk s.filePath (s.outbox ++ [b]) ∈
        (hubStep hub senderFp true now m).1.sessions := by
  have hb : (recvStep senderFp true now hub.store m).broadcast = [b] := by
    cases m <;> simp_all [recvStep, mutationBroadcast, clearAnnsWhere]
  refine ⟨hb, ?_, ?_⟩
  · simp only [hubStep, hb]
  · intro s hs
    simp only [hubStep, hb]
    exact List.mem_map.mpr ⟨s, hs, rfl⟩

/-- Witness for C4: a hub with two sessions subscribed to different files
both receive the broadcast of a mutation persisted for a.md. -/
theorem broadcast_unfiltered_witness :
    (hubStep ⟨⟨[], []⟩, [⟨"a.md", []⟩, ⟨"b.md", []⟩]⟩ "a.md" true 0
        (WsMessage.newAnn "x" "d")).1.sessions =
      [⟨"a.md", [WsMessage.newAnn "x" "d"]⟩, ⟨"b.md", [WsMessage.newAnn "x" "d"]⟩] :=
  ((broadcast_unfiltered ⟨⟨[], []⟩, [⟨"a.md", []⟩, ⟨"b.md", []⟩]⟩ "a.md" 0
      (WsMessage.newAnn "x" "d") (WsMessage.newAnn "x" "d") rfl).2.1).trans (by decide)

/-- C9: a delete_annotation message deletes exactly the stored rows whose
id and file_path both match the request id and the declared path of the
session; a row with the same id under another path, and the whole viewed
state table, stay unchanged. -/
theorem delete_scoped (fp : String) (now : Nat) (st : Store) (id : String) :
    (recvStep fp true now st (WsMessage.deleteAnn id)).store.anns =
      st.anns.filter (fun r => ¬ (r.id = id ∧ r.file_path = fp)) ∧
    (recvStep fp true now st (WsMessage.deleteAnn id)).store.viewed = st.viewed ∧
    (∀ a, a ∈ (recvStep fp true now st (WsMessage.deleteAnn id)).store.anns ↔
      a ∈ st.anns ∧ ¬ (a.id = id ∧ a.file_path = fp)) ∧
    (∀ a, a ∈ st.anns → a.id = id → a.file_path ≠ fp →
      a ∈ (recvStep fp true now st (WsMessage.deleteAnn id)).store.anns) := by
  refine ⟨rfl, rfl, ?_, ?_⟩
  · intro a
    show a ∈ st.anns.filter _ ↔ _
    rw [List.mem_filter]
    constructor
    · rintro ⟨ha, hp⟩
      refine ⟨ha, ?_⟩
      have hp2 := of_decide_eq_true hp
      tauto
    · rintro ⟨ha, hp⟩
      refine ⟨ha, ?_⟩
      exact decide_eq_true hp
  · intro a ha hid hfp
    show a ∈ st.anns.filter _
    rw [List.mem_filter]
    refine ⟨ha, ?_⟩
    simp [hid, hfp]

/-- Witness for C9: deleting id x scoped to a.md removes only the a.md row,
keeping the row with the same id under b.md and the viewed state. -/
theorem delete_scoped_witness :
    (recvStep "a.md" true 0
        ⟨[⟨"x", "a.md", "d1"⟩, ⟨"x", "b.md", "d2"⟩], [⟨"a.md", "s1", 0⟩]⟩
        (WsMessage.deleteAnn "x")).store.anns = [⟨"x", "b.md", "d2"⟩] ∧
    (recvStep "a.md" true 0
        ⟨[⟨"x", "a.md", "d1"⟩, ⟨"x", "b.md", "d2"⟩], [⟨"a.md", "s1", 0⟩]⟩
        (WsMessage.deleteAnn "x")).store.viewed = [⟨"a.md", "s1", 0⟩] :=
  ⟨((delete_scoped "a.md" 0
      ⟨[⟨"x", "a.md", "d1"⟩, ⟨"x", "b.md", "d2"⟩], [⟨"a.md", "s1", 0⟩]⟩ "x").1).trans
        (by decide),
   (delete_scoped "a.md" 0
      ⟨[⟨"x", "a.md", "d1"⟩, ⟨"x", "b.md", "d2"⟩], [⟨"a.md", "s1", 0⟩]⟩ "x").2.1⟩

theorem find_unique_viewed (fp : String) (l : List ViewedRow)
    (hpw : List.Pairwise (fun a b => a.file_path ≠ b.file_path) l) :
    ∀ r ∈ l, r.file_path = fp → l.find? (fun x => x.file_path = fp) = some r := by
  induction l with
  | nil => intro r hr; cases hr
  | cons hd tl ih =>
    intro r hr hfp
    rcases List.mem_cons.mp hr with rfl | htl
    · rw [List.find?_cons_of_pos]
      simp [hfp]
    · rw [List.find?_cons_of_neg]
      · exact ih (List.Pairwise.of_cons hpw) r htl hfp
      · have hne := (List.pairwise_cons.mp hpw).1 r htl
        simp [← hfp, hne]

/-- C5: a new connection declaring fp receives exactly two replies before
anything is relayed, in order: an all_annotations message holding exactly
the data of the stored rows whose file_path is fp, then a viewed_state
message holding the stored state for fp, or the empty JSON object when
fp has no stored row (with the primary-key invariant that file paths are
unique in the viewed table). -/
theorem handshake_replay (st : Store) (fp : String) :
    handshakeReplies st fp =
      [WsMessage.allAnns ((st.anns.filter (fun r => r.file_path = fp)).map AnnRow.data),
       WsMessage.viewedState (viewedOrEmpty st fp)] ∧
    (∀ d, d ∈ (st.anns.filter (fun r => r.file_path = fp)).map AnnRow.data ↔
      ∃ r, r ∈ st.anns ∧ r.file_path = fp ∧ r.data = d) ∧
    ((∀ r ∈ st.viewed, r.file_path ≠ fp) → viewedOrEmpty st fp = emptyJsonObject) ∧
    (List.Pairwise (fun a b => a.file_path ≠ b.file_path) st.viewed →
      ∀ r ∈ st.viewed, r.file_path = fp → viewedOrEmpty st fp = r.state) := by
  refine ⟨rfl, ?_, ?_, ?_⟩
  · intro d
    constructor
    · intro hd
      obtain ⟨r, hr, hdata⟩ := List.mem_map.mp hd
      exact ⟨r, List.mem_of_mem_filter hr, by simpa using List.of_mem_filter hr, hdata⟩
    · rintro ⟨r, hr, hfp, rfl⟩
      exact List.mem_map.mpr ⟨r, List.mem_filter.mpr ⟨hr, by simpa using hfp⟩, rfl⟩
  · intro hnone
    unfold viewedOrEmpty
    rw [List.find?_eq_none.mpr]
    · rfl
    · intro x hx
      simpa using hnone x hx
  · intro hpw r hr hfp
    unfold viewedOrEmpty
    rw [find_unique_viewed fp st.viewed hpw r hr hfp]
    rfl

/-- Witness for C5: the replay scenario with one stored annotation for a.md
and no stored viewed state. -/
theorem handshake_replay_witness :
    handshakeReplies ⟨[⟨"x", "a.md", "d1"⟩, ⟨"y", "b.md", "d2"⟩], []⟩ "a.md" =
      [WsMessage.allAnns ["d1"], WsMessage.viewedState emptyJsonObject] :=
  ((handshake_replay ⟨[⟨"x", "a.md", "d1"⟩, ⟨"y", "b.md", "d2"⟩], []⟩ "a.md").1).trans
    (by decide)

end Markon
